import Mathlib

/-!
# Verification development for the Transaction Finder repository

A shallow embedding, in Lean 4, of the value-handling, filtering, value
resolution and combination-matching logic of `main.py` and `finder.py`,
together with theorems settling the specification claims about them.

Numeric model: Python `float` values are modelled as rational numbers, with
every float operation rounding its exact rational result to IEEE-754 binary64
(round to nearest, ties to even).  Python `Decimal` and `int` arithmetic at
the sizes appearing here is exact and is modelled directly on `ℚ`/`ℤ`.
External API responses (Etherscan) are modelled by an explicit environment of
response functions; a raised `requests`/parse exception is modelled with the
`Except` monad, mirroring the fact that the Python code installs no handler
around the per-candidate resolution loop.
-/

set_option maxRecDepth 100000

attribute [local semireducible] Rat.add Rat.mul Rat.sub Rat.inv

deriving instance DecidableEq for Except

/-! ## ASCII string helpers (Python `str.lower`, `str.upper`, `str.startswith`)

The addresses and hex strings handled by the program are ASCII, so Python's
`str.lower()`/`str.upper()` are modelled on ASCII letters only. -/

def lcChar (c : Char) : Char :=
  if 'A' ≤ c ∧ c ≤ 'Z' then Char.ofNat (c.toNat + 32) else c

def ucChar (c : Char) : Char :=
  if 'a' ≤ c ∧ c ≤ 'z' then Char.ofNat (c.toNat - 32) else c

def lcStr (s : String) : String := String.mk (s.data.map lcChar)

def ucStr (s : String) : String := String.mk (s.data.map ucChar)

def strStartsWith (s p : String) : Bool := p.data.isPrefixOf s.data

/-! ## Python `int(s, 16)`

`finder.wei_to_eth` and `finder.get_weth_input_into` parse hex strings with
Python's `int(┄, 16)`.  That parser accepts: optional surrounding ASCII
whitespace, an optional `+`/`-` sign, an optional `0x`/`0X` prefix, and hex
digits optionally separated by single underscores (an underscore may also
directly follow the prefix).  It is modelled here character-for-character
(ASCII inputs; the program only ever feeds it ASCII). -/

def isPyWs (c : Char) : Bool :=
  c = ' ' || c = '\t' || c = '\n' || c = '\r' || c = '\x0b' || c = '\x0c'

def isHexDigitC (c : Char) : Bool :=
  ('0' ≤ c && c ≤ '9') || ('a' ≤ c && c ≤ 'f') || ('A' ≤ c && c ≤ 'F')

def hexVal (c : Char) : ℕ :=
  if '0' ≤ c ∧ c ≤ '9' then c.toNat - 48
  else if 'a' ≤ c ∧ c ≤ 'f' then c.toNat - 87
  else if 'A' ≤ c ∧ c ≤ 'F' then c.toNat - 55
  else 0

/-- Digit scanner for `int(s, 16)` after sign and prefix handling.
`prevDigit` records whether the previous character was a digit (an underscore
is only legal after a digit, or directly after the `0x` prefix, which is
modelled by starting with `prevDigit = true`); `seen` records whether any
digit has appeared.  The string must end in a digit. -/
def goHex : List Char → ℕ → Bool → Bool → Option ℕ
  | [], acc, prevDigit, seen => if prevDigit && seen then some acc else none
  | c :: cs, acc, prevDigit, seen =>
      if isHexDigitC c then goHex cs (acc * 16 + hexVal c) true true
      else if c = '_' && prevDigit then goHex cs acc false seen
      else none

/-- Unsigned part of `int(s, 16)`: optional `0x`/`0X` prefix, then digits. -/
def parseUHex : List Char → Option ℕ
  | [] => goHex [] 0 false false
  | [c] => goHex [c] 0 false false
  | c0 :: c1 :: rest =>
      if c0 = '0' ∧ (c1 = 'x' ∨ c1 = 'X') then goHex rest 0 true false
      else goHex (c0 :: c1 :: rest) 0 false false

def stripWs (cs : List Char) : List Char :=
  ((cs.dropWhile isPyWs).reverse.dropWhile isPyWs).reverse

/-- Python `int(s, 16)`: `none` models a raised `ValueError`. -/
def pyIntHex (s : String) : Option ℤ :=
  match stripWs s.data with
  | [] => none
  | c :: rest =>
      if c = '-' then (parseUHex rest).map fun n => -(n : ℤ)
      else if c = '+' then (parseUHex rest).map fun n => (n : ℤ)
      else (parseUHex (c :: rest)).map fun n => (n : ℤ)

/-- The spec's notion of a valid **unsigned** integer encoding: an optional
`0x` prefix followed by one or more bare hex digits (no sign, no whitespace,
no separators), with its value.  This definition follows the specification's
words, for comparison with the source parser `pyIntHex`. -/
def unsignedHexCore : List Char → ℕ → Option ℕ
  | [], acc => some acc
  | c :: cs, acc =>
      if isHexDigitC c then unsignedHexCore cs (acc * 16 + hexVal c) else none

def unsignedHexValue (s : String) : Option ℕ :=
  match s.data with
  | [] => none
  | [c] => unsignedHexCore [c] 0
  | c0 :: c1 :: rest =>
      if c0 = '0' ∧ c1 = 'x' then
        (if rest = [] then none else unsignedHexCore rest 0)
      else unsignedHexCore (c0 :: c1 :: rest) 0

/-! ## IEEE-754 binary64 rounding, on `ℚ`

Python floats are binary64.  `roundFloat q` is the rational value of the
double nearest to `q` (ties to even).  The model covers the normal range
(|q| up to `2^1024`, no overflow or subnormal handling) — every value this
development evaluates it at is far inside that range. -/

def pow2 : ℕ → ℚ
  | 0 => 1
  | n + 1 => 2 * pow2 n

def pow2z (e : ℤ) : ℚ := if 0 ≤ e then pow2 e.toNat else 1 / pow2 (-e).toNat

/-- Floor of `log₂ q` for positive `q`, by fuelled scaling (fuel 5000 covers all
exponents of the binary64 range). -/
def floorLog2Aux : ℕ → ℚ → ℤ → ℤ
  | 0, _, acc => acc
  | fuel + 1, q, acc =>
      if q < 1 then floorLog2Aux fuel (q * 2) (acc - 1)
      else if 2 ≤ q then floorLog2Aux fuel (q / 2) (acc + 1)
      else acc

def floorLog2 (q : ℚ) : ℤ := floorLog2Aux 5000 q 0

/-- Round a rational to an integer, ties to even. -/
def rhe (x : ℚ) : ℤ :=
  let f := Rat.floor x
  if x - f < 1 / 2 then f
  else if (1 : ℚ) / 2 < x - f then f + 1
  else if f % 2 = 0 then f else f + 1

/-- Round to nearest binary64 value (53-bit significand), ties to even. -/
def roundFloat (q : ℚ) : ℚ :=
  if q = 0 then 0
  else
    let a : ℚ := if q < 0 then -q else q
    let e : ℤ := floorLog2 a - 52
    let m : ℤ := rhe (a * pow2z (-e))
    let r : ℚ := (m : ℚ) * pow2z e
    if q < 0 then -r else r

/-- Conversion of a Python `int` to `float` (rounds when above 2^53). -/
def floatOfInt (n : ℤ) : ℚ := roundFloat (n : ℚ)

/-- IEEE division of two doubles: correctly rounded exact quotient. -/
def fdiv (a b : ℚ) : ℚ := roundFloat (a / b)

/-- IEEE addition of two doubles: correctly rounded exact sum. -/
def fadd (a b : ℚ) : ℚ := roundFloat (a + b)

/-- IEEE subtraction of two doubles: correctly rounded exact difference. -/
def fsub (a b : ℚ) : ℚ := roundFloat (a - b)

/-- Python `int / int` true division: the correctly rounded double of the
exact rational quotient (CPython `long_true_divide`). -/
def pyIntDiv (a b : ℤ) : ℚ := roundFloat ((a : ℚ) / (b : ℚ))

def pow10 : ℕ → ℤ
  | 0 => 1
  | n + 1 => 10 * pow10 n

/-- The float literal `1e18` — exactly `10^18`, which is representable. -/
def WEI_FLOAT : ℚ := 1000000000000000000

/-! ## `finder.py` -/

/-- Source `finder.WETH_ADDR` (the source applies `.lower()` to the checksummed form). -/
def WETH_ADDR : String := lcStr "0xC02aaA39B223FE8D0A0E5C4F27eAD9083C756Cc2"

/-- Source `finder.ROUTER_ADDRS`. -/
def ROUTER_ADDRS : List String :=
  [ "0x7a250d5630b4cf539739df2c5dacab4c659f2488"
  , "0xe592427a0aece92de3eedee1f18e0157c05861564"
  , "0x68b3465833fb72a70ecdf485e0e4c7bd8665fc45"
  , "0xd9e1ce17f2641f24ae83637ab66a2cca9c378b9f"
  , "0xdef1c0ded9bec7f1a1670819833240f027b25eff"
  , "0x1111111254fb6c44bac0bed2854e76f90643097d"
  , "0x11111112542d85b3ef69ae05771c2dccff4faa26"
  , "0x9008d19f58aabd9ed0d60971565aa8510560ab41"
  , "0xef1c6e67703c7bd7107eed8303fbe6ec2554bf6b"
  , "0xba12222222228d8ba445958a75a0704d566bf2c8"
  , "0xf6a4b1bb5ac45e4d3ab33be1284626055310976d"
  , "0xdef171fe48cf0115b1d80b88dc8eab59176fee57" ]

/-- Source `finder.is_router`. -/
def is_router (addr : String) : Bool := ROUTER_ADDRS.contains (lcStr addr)

/-- Source `finder.wei_to_eth`: `int(wei_hex, 16) / 1e18` (int → float conversion,
then float division).  `none` models the `ValueError` raised on a bad
encoding. -/
def wei_to_eth (weiHex : String) : Option ℚ :=
  (pyIntHex weiHex).map fun n => fdiv (floatOfInt n) WEI_FLOAT

/-- Source `finder._topic_to_addr`: strip a `0x` prefix, keep the last 40 hex chars,
re-prefix with `0x`. -/
def topic_to_addr (topicHex : String) : String :=
  let cs := if strStartsWith topicHex "0x" then topicHex.data.drop 2 else topicHex.data
  String.mk ('0' :: 'x' :: cs.drop (cs.length - 40))

/-- One receipt log entry (fields used by `get_weth_input_into`). -/
structure TxLog where
  address : String
  topics : List String
  data : String
deriving DecidableEq

inductive PyErr
  /-- A raised network error (`requests` exception / `raise_for_status`). -/
  | net
  /-- A raised `ValueError` from `int(┄, 16)` on receipt-log data. -/
  | parse
deriving DecidableEq

/-- The external Etherscan API, as response functions.  `txValue h` models
`eth_getTransactionByHash(h).result.value` (`none` = result missing or value
field absent); `txLogs h` models `eth_getTransactionReceipt(h).result.logs`.
An `Except.error` is a raised exception during the HTTP call. -/
structure Env where
  txValue : String → Except PyErr (Option String)
  txLogs : String → Except PyErr (List TxLog)

/-- Source `finder.get_tx_eth_value`: read the native value of a transaction.
`if not val_hex: return None`, then `wei_to_eth` with the `try/except`
mapping a raised `ValueError` to `None`. -/
def get_tx_eth_value (env : Env) (txhash : String) : Except PyErr (Option ℚ) := do
  let valHex ← env.txValue txhash
  match valHex with
  | none => pure none
  | some s =>
      if s = "" then pure none
      else
        match wei_to_eth s with
        | none => pure none
        | some v => pure (some v)

/-- The summation loop of `finder.get_weth_input_into` over receipt logs:
skip non-WETH logs, logs with fewer than three topics, logs whose first topic
does not start with `0xddf252ad`, and logs whose transfer destination is not
`router`; accumulate `int(data, 16) / 1e18` in float arithmetic.  A bad
`data` encoding raises (no handler in the source). -/
def weth_sum (router : String) : List TxLog → ℚ → Except PyErr ℚ
  | [], acc => .ok acc
  | log :: rest, acc =>
      if lcStr log.address ≠ WETH_ADDR then weth_sum router rest acc
      else
        match log.topics with
        | t0 :: _ :: t2 :: _ =>
            if ¬ strStartsWith (lcStr t0) "0xddf252ad" then weth_sum router rest acc
            else if lcStr (topic_to_addr t2) ≠ router then weth_sum router rest acc
            else
              match pyIntHex log.data with
              | none => .error .parse
              | some raw => weth_sum router rest (fadd acc (fdiv (floatOfInt raw) WEI_FLOAT))
        | _ => weth_sum router rest acc

/-- Source `finder.get_weth_input_into`: sum the WETH transferred into
`router_addr` within `txhash`; `None` unless the sum is positive. -/
def get_weth_input_into (env : Env) (txhash routerAddr : String) :
    Except PyErr (Option ℚ) := do
  let logs ← env.txLogs txhash
  let total ← weth_sum (lcStr routerAddr) logs 0
  if 0 < total then pure (some total) else pure none

/-! ## `main.py` -/

/-- Source `finder.TOKEN_REGISTRY`. -/
def TOKEN_REGISTRY : List (String × String) :=
  [ ("USDC", "0xa0b86991c6218b36c1d19d4a2e9eb0ce3606eb48")
  , ("USDT", "0xdac17f958d2ee523a2206206994597c13d831ec7") ]

/-- Source `finder.TOKEN_DECIMALS`. -/
def TOKEN_DECIMALS : List (String × ℕ) := [("USDC", 6), ("USDT", 6)]

/-- Source `TOKEN_REGISTRY.get(sym.upper())` (`main.py` lines 132 and 279). -/
def lookup_token (sym : String) : Option String := TOKEN_REGISTRY.lookup (ucStr sym)

/-- From `main.py` line 294: `amount = int(t["value"]) / (10 ** decimals)` —
Python float true division of two exact integers. -/
def normalize_stable (raw : ℤ) (decimals : ℕ) : ℚ := pyIntDiv raw (pow10 decimals)

/-- From `main.py` line 158: `lo = args.stable_amount * (1 - args.stable_pct_tol / 100)`
(numeric model `ℚ`). -/
def lo_bound (stableAmount pctTol : ℚ) : ℚ := stableAmount * (1 - pctTol / 100)

/-- From `main.py` line 159: `hi = args.stable_amount * (1 + args.stable_pct_tol / 100)`. -/
def hi_bound (stableAmount pctTol : ℚ) : ℚ := stableAmount * (1 + pctTol / 100)

/-- The value-window test of `main.py` line 295: `lo <= amount <= hi`. -/
def in_window (lo hi amount : ℚ) : Bool := decide (lo ≤ amount) && decide (amount ≤ hi)

/-- The absolute-tolerance window of `main.py` lines 201/256:
`abs(val - target) <= tol`. -/
def in_abs_window (target tol v : ℚ) : Bool := decide (|v - target| ≤ tol)

/-- One raw ERC-20 transfer record as consumed by the stable-token loop
(`t["hash"]`, `t["from"]`, `t["to"]`, `int(t["value"])`). -/
structure RawTransfer where
  hash : String
  fromA : String
  toA : String
  value : ℤ
deriving DecidableEq

/-- The working candidate record built at `main.py` lines 296-307. -/
structure Candidate where
  sym : String
  hash : String
  usdc : ℚ
  fromAddr : String
  toAddr : String
  ethIn : Option ℚ
deriving DecidableEq

/-- The loop body of `main.py` lines 284-307 for one transfer: blocklist
exclusion, optional router-participation requirement, then the value window;
`none` models `continue`. -/
def candidate_of_transfer (blockSet : List String) (requireRouter : Bool)
    (lo hi : ℚ) (decimals : ℕ) (sym : String) (t : RawTransfer) : Option Candidate :=
  let frm := lcStr t.fromA
  let toA := lcStr t.toA
  if !blockSet.isEmpty && (blockSet.contains frm || blockSet.contains toA) then none
  else if requireRouter && !(is_router frm || is_router toA) then none
  else
    let amount := normalize_stable t.value decimals
    if in_window lo hi amount then
      some { sym := sym, hash := t.hash, usdc := amount, fromAddr := frm,
             toAddr := toA, ethIn := none }
    else none

/-- The candidate-collection loop of `main.py` lines 284-307. -/
def collect_candidates (blockSet : List String) (requireRouter : Bool)
    (lo hi : ℚ) (decimals : ℕ) (sym : String) (transfers : List RawTransfer) :
    List Candidate :=
  transfers.filterMap (candidate_of_transfer blockSet requireRouter lo hi decimals sym)

/-- The per-candidate value resolution of `main.py` lines 312-315: take the
native value; if it is `None` or `0`, fall back to the WETH logs flowing into
`cand["from"] if finder.is_router(cand["from"]) else cand["to"]`. -/
def resolve_candidate (env : Env) (c : Candidate) : Except PyErr (Option ℚ) := do
  let v0 ← get_tx_eth_value env c.hash
  if v0 = none ∨ v0 = some 0 then
    get_weth_input_into env c.hash (if is_router c.fromAddr then c.fromAddr else c.toAddr)
  else pure v0

/-- The resolution step as the specification words it (§4.4): the fallback
address is *whichever of `from_addr`/`to_addr` is a recognized router*; when
neither is, no WETH sum is taken and the value stays unresolved.  This
definition follows the specification, for comparison with
`resolve_candidate`, which follows the source. -/
def resolve_candidate_spec (env : Env) (c : Candidate) : Except PyErr (Option ℚ) := do
  let v0 ← get_tx_eth_value env c.hash
  if v0 = none ∨ v0 = some 0 then
    if is_router c.fromAddr then get_weth_input_into env c.hash c.fromAddr
    else if is_router c.toAddr then get_weth_input_into env c.hash c.toAddr
    else pure none
  else pure v0

/-- The resolution loop of `main.py` lines 311-317.  The source installs no
exception handler here, so a raised error from any candidate's lookup
propagates and aborts the whole loop — modelled by the `Except` bind. -/
def resolve_all (env : Env) : List Candidate → Except PyErr (List Candidate)
  | [] => .ok []
  | c :: cs => do
      let v ← resolve_candidate env c
      let rest ← resolve_all env cs
      pure ({ c with ethIn := v } :: rest)

/-- The value `resolve_candidate` yields when it does not raise. -/
def resolvedVal (env : Env) (c : Candidate) : Option ℚ :=
  match resolve_candidate env c with
  | .ok v => v
  | .error _ => none

def exceptOpt (e : Except PyErr (Option ℚ)) : Option ℚ :=
  match e with
  | .ok v => v
  | .error _ => none

def exceptIsOk {α : Type} (e : Except PyErr α) : Bool :=
  match e with
  | .ok _ => true
  | .error _ => false

/-- From `main.py` line 325: `[c for c in candidates if c["eth_in"] and c["eth_in"] > 0]`
(`None` and `0.0` are falsy). -/
def with_eth (cands : List Candidate) : List Candidate :=
  cands.filter fun c =>
    match c.ethIn with
    | none => false
    | some v => !(v = 0 : Bool) && decide (0 < v)

/-- Model of `itertools.combinations(xs, r)`: all length-`r` sublists of `xs`, in the
order `itertools` yields them (those containing the head first). -/
def combinations {α : Type} : ℕ → List α → List (List α)
  | 0, _ => [[]]
  | _ + 1, [] => []
  | r + 1, x :: xs => ((combinations r xs).map (x :: ·)) ++ combinations (r + 1) xs

/-- The float value summed at `main.py` line 331 (`x["eth_in"]` of a
candidate that passed `with_eth`). -/
def ethVal (c : Candidate) : ℚ := c.ethIn.getD 0

structure MatchResult where
  total : ℚ
  hashes : List String
deriving DecidableEq

/-- The float sum of `main.py` line 331, `sum(x["eth_in"] for x in combo)`:
Python's `sum` folds left-to-right from `0`, each addition a binary64
addition (`fadd`). -/
def floatSum (combo : List Candidate) : ℚ :=
  combo.foldl (fun acc c => fadd acc (ethVal c)) 0

/-- The combination-matching loop of `main.py` lines 329-333: for
`r in range(1, min(max_combo, n) + 1)`, for each `itertools` combination,
compute `total_eth` as the left-to-right binary64 float sum of the members'
`eth_in` and emit `(total, hashes)` when `abs(total_eth - args.eth) <=
args.eth_tol`, whose subtraction is a binary64 subtraction (`fsub`; `abs`
and `<=` are exact on floats). -/
def matchCombos (maxCombo : ℕ) (target tol : ℚ) (cands : List Candidate) :
    List MatchResult :=
  (List.range' 1 (min maxCombo cands.length)).flatMap fun r =>
    (combinations r cands).filterMap fun combo =>
      let total := floatSum combo
      if |fsub total target| ≤ tol then some ⟨total, combo.map Candidate.hash⟩ else none

/-! ## The fetch/exit skeleton of `main()` (`main.py` lines 143-176, 278-282)

For the error-ordering claims only the order of external fetches and fatal
exits matters, so `main()`'s control flow up to candidate collection is
modelled as the list of such events it produces (value resolution would only
append further fetch events after these). -/

inductive Event
  /-- One external API call (block lookup or transfer fetch). -/
  | fetch
  /-- A fatal `SystemExit` before completing the run. -/
  | exitErr
deriving DecidableEq

structure Config where
  apiKey : Bool
  date : Option String
  startDate : Option String
  endDate : Option String
  tokens : List String
  stableAmount : ℚ
  stablePctTol : ℚ
  ethTarget : ℚ
  ethTol : ℚ
  maxCombo : ℕ
deriving DecidableEq

/-- Events of `basic_stats` (`main.py` lines 122-140): two block lookups, then one
transfer fetch per recognized token symbol. -/
def basic_stats_events (tokens : List String) : List Event :=
  Event.fetch :: Event.fetch ::
    tokens.filterMap fun s => (lookup_token s).map fun _ => Event.fetch

/-- Events of `main()` lines 146-176 and 278-282: the API-key check, the
`basic_stats` call when only `--date` is given (line 154), the window
computation whose `else` branch is the fatal missing-dates exit (line 171),
the two block lookups (lines 175-176) and the per-token transfer fetches
(lines 278-282).  No tolerance value is ever validated anywhere in `main()`. -/
def main_events (cfg : Config) : List Event :=
  if !cfg.apiKey then [Event.exitErr]
  else
    (if cfg.date.isSome && !cfg.startDate.isSome then basic_stats_events cfg.tokens
     else []) ++
    (if (cfg.startDate.isSome && cfg.endDate.isSome) || cfg.date.isSome then
      Event.fetch :: Event.fetch ::
        (cfg.tokens.filterMap fun s => (lookup_token s).map fun _ => Event.fetch)
     else [Event.exitErr])

/-! ## Concrete fixtures for counterexamples and witnesses -/

/-- The full ERC-20 `Transfer` event topic. -/
def TRANSFER_TOPIC_FULL : String :=
  "0xddf252ad1be2c89b69c2b068fc378daa952ba7f163c4a11628f55a4df523b3ef"

def addr_a : String := "0xaaaaaaaaaaaaaaaaaaaaaaaaaaaaaaaaaaaaaaaa"

def addr_b : String := "0xbbbbbbbbbbbbbbbbbbbbbbbbbbbbbbbbbbbbbbbb"

/-- The 32-byte topic encoding of `addr_b`. -/
def topic_b : String :=
  "0x000000000000000000000000bbbbbbbbbbbbbbbbbbbbbbbbbbbbbbbbbbbbbbbb"

/-- A receipt log: 1 WETH (`0xde0b6b3a7640000` wei) transferred to `addr_b`. -/
def log_one_weth_to_b : TxLog :=
  { address := "0xC02aaA39B223FE8D0A0E5C4F27eAD9083C756Cc2"
  , topics := [TRANSFER_TOPIC_FULL, topic_b, topic_b]
  , data := "0xde0b6b3a7640000" }

/-- Environment: every transaction has native value `0x0` and one receipt
log moving 1 WETH to `addr_b`. -/
def env_weth_b : Env :=
  { txValue := fun _ => .ok (some "0x0")
  , txLogs := fun _ => .ok [log_one_weth_to_b] }

/-- A candidate between two non-router addresses. -/
def cand_ab : Candidate :=
  { sym := "USDC", hash := "0xh1", usdc := 52000, fromAddr := addr_a,
    toAddr := addr_b, ethIn := none }

/-- A candidate whose `from` is the Uniswap V2 router. -/
def cand_router_from : Candidate :=
  { sym := "USDC", hash := "0xh1", usdc := 52000,
    fromAddr := "0x7a250d5630b4cf539739df2c5dacab4c659f2488",
    toAddr := addr_b, ethIn := none }

/-- Environment whose native-value response is the *signed* hex `-0x1`
(accepted by `int(┄, 16)`). -/
def env_signed : Env :=
  { txValue := fun _ => .ok (some "-0x1")
  , txLogs := fun _ => .ok [] }

/-- Environment raising a network error for hash `0xh1` only. -/
def env_net_fail : Env :=
  { txValue := fun h => if h = "0xh1" then .error .net else .ok (some "0x0")
  , txLogs := fun _ => .ok [] }

/-- Environment that never raises and has no receipt logs. -/
def env_quiet : Env :=
  { txValue := fun _ => .ok (some "0x5")
  , txLogs := fun _ => .ok [] }

def cand_h2 : Candidate := { cand_ab with hash := "0xh2" }

/-- Four resolved candidates with ETH values 5, 5, 3, 2. -/
def cand_five1 : Candidate :=
  { sym := "USDC", hash := "0xa1", usdc := 0, fromAddr := addr_a,
    toAddr := addr_b, ethIn := some 5 }

def cand_five2 : Candidate := { cand_five1 with hash := "0xa2" }

def cand_three : Candidate := { cand_five1 with hash := "0xa3", ethIn := some 3 }

def cand_two : Candidate := { cand_five1 with hash := "0xa4", ethIn := some 2 }

/-- A candidate whose resolved value is the double `0.1`, obtained through
the program's own wei conversion (`10^17` wei). -/
def cand_pt1 : Candidate :=
  { sym := "USDC", hash := "0xb1", usdc := 0, fromAddr := addr_a,
    toAddr := addr_b, ethIn := wei_to_eth "0x16345785d8a0000" }

/-- A candidate whose resolved value is the double `0.2` (`2·10^17` wei). -/
def cand_pt2 : Candidate :=
  { cand_pt1 with hash := "0xb2", ethIn := wei_to_eth "0x2c68af0bb140000" }

/-- The value of the Python literal `0.30000000000000004`: the binary64 sum
`0.1 + 0.2`, one ulp above the exact sum of the two doubles. -/
def target_03 : ℚ := 1351079888211149 / 4503599627370496

/-- A configuration with a negative ETH tolerance and a valid date. -/
def cfg_negtol : Config :=
  { apiKey := true, date := some "2025-07-10", startDate := none, endDate := none,
    tokens := ["USDC"], stableAmount := 52800, stablePctTol := 2,
    ethTarget := 176 / 10, ethTol := -1 / 50, maxCombo := 3 }

/-- A configuration missing its window dates (start date without end date). -/
def cfg_nodate : Config :=
  { apiKey := true, date := none, startDate := some "2025-07-10", endDate := none,
    tokens := ["USDC", "USDT"], stableAmount := 52800, stablePctTol := 2,
    ethTarget := 176 / 10, ethTol := 1 / 50, maxCombo := 3 }

/-! ## Theorems -/

/-- Claim C2, counterexample.  The claim says normalization computes
`raw / 10^decimals` exactly with no floating-point drift even past 15
significant digits.  `main.py` line 294 divides in binary floating point:
at `raw = 10^17 + 1`, `decimals = 6` the code's result differs from the
exact quotient `10^11 + 10^-6`. -/
theorem normalize_stable_not_exact :
    normalize_stable 100000000000000001 6 ≠ (100000000000000001 : ℚ) / 1000000 := by
  decide

/-- Claim C2, amended.  Normalization is the correctly rounded binary64 value
of `raw / 10^decimals`: at `raw = 10^17 + 1`, `decimals = 6` it returns
exactly `10^11` (the `10^-6` part is rounded away), while on values that fit
binary64 it is exact: `wei_to_eth` maps `0xde0b6b3a7640000` (1 ETH) to `1`
and `0x0` to `0`. -/
theorem normalize_stable_binary64 :
    normalize_stable 100000000000000001 6 = 100000000000 ∧
    wei_to_eth "0xde0b6b3a7640000" = some 1 ∧
    wei_to_eth "0x0" = some 0 := by
  refine ⟨by decide, by decide, by decide⟩

theorem unsignedHexCore_all_hex :
    ∀ (cs : List Char) (acc n : ℕ), unsignedHexCore cs acc = some n →
      ∀ c ∈ cs, isHexDigitC c = true := by
  intro cs
  induction cs with
  | nil => intro acc n _ c hc; cases hc
  | cons d t ih =>
      intro acc n h c hc
      simp only [unsignedHexCore] at h
      by_cases hd : isHexDigitC d = true
      · rw [if_pos hd] at h
        rcases List.mem_cons.1 hc with rfl | hc
        · exact hd
        · exact ih _ n h c hc
      · rw [if_neg hd] at h; cases h

theorem goHex_of_core :
    ∀ (cs : List Char) (acc n : ℕ), cs ≠ [] → unsignedHexCore cs acc = some n →
      ∀ p q : Bool, goHex cs acc p q = some n := by
  intro cs
  induction cs with
  | nil => intro acc n h; exact absurd rfl h
  | cons d t ih =>
      intro acc n _ h p q
      simp only [unsignedHexCore] at h
      by_cases hd : isHexDigitC d = true
      · rw [if_pos hd] at h
        simp only [goHex, hd, if_pos]
        cases t with
        | nil =>
            simp only [unsignedHexCore] at h
            simp only [goHex, Bool.and_self, if_pos]
            exact h
        | cons e t2 => exact ih _ n (by simp) h true true
      · rw [if_neg hd] at h; cases h

theorem hex_ne_ws : ∀ c : Char, isHexDigitC c = true → isPyWs c = false := by
  intro c h
  by_contra hw
  rw [Bool.not_eq_false] at hw
  simp only [isPyWs, Bool.or_eq_true, decide_eq_true_eq] at hw
  rcases hw with ((((h1 | h1) | h1) | h1) | h1) | h1 <;> subst h1 <;>
    exact absurd h (by decide)

theorem stripWs_of_no_ws :
    ∀ cs : List Char, (∀ c ∈ cs, isPyWs c = false) → stripWs cs = cs := by
  intro cs h
  have h1 : cs.dropWhile isPyWs = cs := by
    cases cs with
    | nil => rfl
    | cons d t => rw [List.dropWhile_cons, h d (List.mem_cons_self d t)]; simp
  have h2 : cs.reverse.dropWhile isPyWs = cs.reverse := by
    cases hr : cs.reverse with
    | nil => rfl
    | cons d t =>
        have hd : d ∈ cs := by rw [← List.mem_reverse, hr]; exact List.mem_cons_self d t
        rw [List.dropWhile_cons, h d hd]; simp
  rw [stripWs, h1, h2, List.reverse_reverse]

/-- Claim C8, counterexample.  The claim says conversion fails with
`MalformedValue` *whenever* the input is not a valid unsigned integer
encoding.  `int(┄, 16)` also accepts signed encodings: `-0x1` is not an
unsigned encoding, yet `wei_to_eth` succeeds on it (returning a negative
value) instead of failing. -/
theorem wei_to_eth_accepts_signed :
    unsignedHexValue "-0x1" = none ∧ wei_to_eth "-0x1" ≠ none := by
  refine ⟨by decide, by decide⟩

/-- Claim C8, amended.  Conversion succeeds on every valid *unsigned* hex
encoding, returning the parsed value divided by `10^18` in binary64
arithmetic, and fails exactly when Python's `int(┄, 16)` grammar (which
additionally allows surrounding whitespace, a sign, and underscore
separators) rejects the input — so some non-unsigned encodings succeed
too. -/
theorem unsigned_hex_parses (s : String) (n : ℕ) (h : unsignedHexValue s = some n) :
    pyIntHex s = some (n : ℤ) ∧
    wei_to_eth s = some (fdiv (floatOfInt (n : ℤ)) WEI_FLOAT) := by
  suffices hp : pyIntHex s = some (n : ℤ) by
    refine ⟨hp, ?_⟩
    simp only [wei_to_eth, hp, Option.map_some']
  rcases hsd : s.data with _ | ⟨c0, _ | ⟨c1, rest⟩⟩
  · simp only [unsignedHexValue, hsd] at h
    exact Option.noConfusion h
  · simp only [unsignedHexValue, hsd] at h
    have hhex := unsignedHexCore_all_hex _ _ _ h
    have hc0 : isHexDigitC c0 = true := hhex c0 (by simp)
    have hws : ∀ c ∈ s.data, isPyWs c = false := by
      rw [hsd]; intro c hc
      rcases List.mem_cons.1 hc with rfl | hc
      · exact hex_ne_ws c hc0
      · cases hc
    have hstrip : stripWs s.data = [c0] := by
      rw [stripWs_of_no_ws _ hws, hsd]
    have hm : c0 ≠ '-' := fun he => by rw [he] at hc0; exact absurd hc0 (by decide)
    have hpl : c0 ≠ '+' := fun he => by rw [he] at hc0; exact absurd hc0 (by decide)
    simp only [pyIntHex, hstrip]
    rw [if_neg hm, if_neg hpl]
    simp only [parseUHex]
    rw [goHex_of_core [c0] 0 n (by simp) h false false]
    rfl
  · simp only [unsignedHexValue, hsd] at h
    by_cases hp0 : c0 = '0' ∧ c1 = 'x'
    · rw [if_pos hp0] at h
      by_cases hr : rest = []
      · rw [if_pos hr] at h; cases h
      · rw [if_neg hr] at h
        obtain ⟨h0, h1⟩ := hp0; subst h0; subst h1
        have hhex := unsignedHexCore_all_hex _ _ _ h
        have hws : ∀ c ∈ s.data, isPyWs c = false := by
          rw [hsd]; intro c hc
          rcases List.mem_cons.1 hc with rfl | hc
          · decide
          rcases List.mem_cons.1 hc with rfl | hc
          · decide
          · exact hex_ne_ws c (hhex c hc)
        have hstrip : stripWs s.data = '0' :: 'x' :: rest := by
          rw [stripWs_of_no_ws _ hws, hsd]
        simp only [pyIntHex, hstrip]
        rw [if_neg (by decide : ¬('0' : Char) = '-'),
            if_neg (by decide : ¬('0' : Char) = '+')]
        simp only [parseUHex]
        rw [if_pos ⟨trivial, Or.inl trivial⟩]
        rw [goHex_of_core rest 0 n hr h true false]
        rfl
    · rw [if_neg hp0] at h
      have hhex := unsignedHexCore_all_hex _ _ _ h
      have hc0 : isHexDigitC c0 = true := hhex c0 (by simp)
      have hc1 : isHexDigitC c1 = true := hhex c1 (by simp)
      have hws : ∀ c ∈ s.data, isPyWs c = false := by
        rw [hsd]; intro c hc; exact hex_ne_ws c (hhex c hc)
      have hstrip : stripWs s.data = c0 :: c1 :: rest := by
        rw [stripWs_of_no_ws _ hws, hsd]
      have hm : c0 ≠ '-' := fun he => by rw [he] at hc0; exact absurd hc0 (by decide)
      have hpl : c0 ≠ '+' := fun he => by rw [he] at hc0; exact absurd hc0 (by decide)
      have hx : ¬(c0 = '0' ∧ (c1 = 'x' ∨ c1 = 'X')) := by
        rintro ⟨-, hx | hx⟩ <;> rw [hx] at hc1 <;> exact absurd hc1 (by decide)
      simp only [pyIntHex, hstrip]
      rw [if_neg hm, if_neg hpl]
      simp only [parseUHex]
      rw [if_neg hx]
      rw [goHex_of_core _ 0 n (by simp) h false false]
      rfl

/-- Claim C8, witness for `unsigned_hex_parses`, at the spec's own test vector
`0xde0b6b3a7640000` (1 ETH in wei). -/
theorem unsigned_hex_parses_witness :
    unsignedHexValue "0xde0b6b3a7640000" = some 1000000000000000000 ∧
    pyIntHex "0xde0b6b3a7640000" = some 1000000000000000000 := by
  refine ⟨by decide, ?_⟩
  have := (unsigned_hex_parses "0xde0b6b3a7640000" 1000000000000000000 (by decide)).1
  exact_mod_cast this

theorem pow2_pos : ∀ n : ℕ, 0 < pow2 n := by
  intro n
  induction n with
  | zero => norm_num [pow2]
  | succ k ih => rw [pow2]; exact mul_pos (by norm_num) ih

theorem pow2z_pos : ∀ e : ℤ, 0 < pow2z e := by
  intro e
  rw [pow2z]
  split
  · exact pow2_pos _
  · exact div_pos one_pos (pow2_pos _)

theorem rhe_nonneg {x : ℚ} (hx : 0 ≤ x) : 0 ≤ rhe x := by
  have hf : (0 : ℤ) ≤ Rat.floor x := Rat.le_floor.2 (by exact_mod_cast hx)
  simp only [rhe]
  split_ifs <;> omega

theorem roundFloat_nonneg {q : ℚ} (hq : 0 ≤ q) : 0 ≤ roundFloat q := by
  simp only [roundFloat]
  split_ifs with h0 hneg
  · exact le_refl 0
  · exact absurd hneg (not_lt.2 hq)
  · refine mul_nonneg ?_ (le_of_lt (pow2z_pos _))
    have ha : (0 : ℚ) ≤ q * pow2z (-(floorLog2 q - 52)) :=
      mul_nonneg hq (le_of_lt (pow2z_pos _))
    exact_mod_cast rhe_nonneg ha

/-- A WETH-log fallback value, when adopted, is strictly positive
(`finder.py` lines 209-211). -/
theorem get_weth_input_pos (env : Env) (h r : String) (v : ℚ)
    (hv : get_weth_input_into env h r = .ok (some v)) : 0 < v := by
  cases hlogs : env.txLogs h with
  | error e =>
      simp only [get_weth_input_into, bind, Except.bind, hlogs] at hv
      exact Except.noConfusion hv
  | ok logs =>
      cases hsum : weth_sum (lcStr r) logs 0 with
      | error e =>
          simp only [get_weth_input_into, bind, Except.bind, hlogs, hsum] at hv
          exact Except.noConfusion hv
      | ok total =>
          simp only [get_weth_input_into, bind, Except.bind, hlogs, hsum] at hv
          split_ifs at hv with hpos
          · simp only [pure, Except.pure, Except.ok.injEq, Option.some.injEq] at hv
            rw [← hv]; exact hpos
          · simp only [pure, Except.pure, Except.ok.injEq] at hv
            exact Option.noConfusion hv

/-- A successfully adopted native value is `fdiv (floatOfInt k) WEI_FLOAT`
for the parsed integer `k` of the response hex string. -/
theorem get_tx_eth_value_shape (env : Env) (h : String) (v : ℚ)
    (hv : get_tx_eth_value env h = .ok (some v)) :
    ∃ s k, env.txValue h = .ok (some s) ∧ pyIntHex s = some k ∧
      v = fdiv (floatOfInt k) WEI_FLOAT := by
  cases hresp : env.txValue h with
  | error e =>
      simp only [get_tx_eth_value, bind, Except.bind, hresp] at hv
      exact Except.noConfusion hv
  | ok valHex =>
      cases valHex with
      | none =>
          simp only [get_tx_eth_value, bind, Except.bind, hresp, pure, Except.pure] at hv
          simp only [Except.ok.injEq] at hv
          exact Option.noConfusion hv
      | some s =>
          simp only [get_tx_eth_value, bind, Except.bind, hresp] at hv
          split_ifs at hv with hs
          · simp only [pure, Except.pure, Except.ok.injEq] at hv
            exact Option.noConfusion hv
          · cases hw : wei_to_eth s with
            | none =>
                rw [hw] at hv
                simp only [pure, Except.pure, Except.ok.injEq] at hv
                exact Option.noConfusion hv
            | some w =>
                rw [hw] at hv
                simp only [pure, Except.pure, Except.ok.injEq, Option.some.injEq] at hv
                obtain ⟨k, hk, hwk⟩ := Option.map_eq_some'.1 hw
                exact ⟨s, k, rfl, hk, by rw [← hv, ← hwk]⟩

/-- Claim C3, counterexample.  The claim (with the spec) says the fallback
address is *whichever of `from_addr`/`to_addr` is a recognized router*, so
with no router endpoint no WETH sum is adopted.  The source instead uses
`to_addr` unconditionally when `from_addr` is not a router: on a candidate
between two non-router addresses whose transaction carries a 1-WETH log into
`to_addr`, the source resolver adopts `1` where the claim's resolution stays
unresolved. -/
theorem resolver_vs_spec_no_router :
    is_router cand_ab.fromAddr = false ∧ is_router cand_ab.toAddr = false ∧
    resolve_candidate env_weth_b cand_ab = .ok (some 1) ∧
    resolve_candidate_spec env_weth_b cand_ab = .ok none := by
  refine ⟨by decide, by decide, by decide, by decide⟩

/-- Claim C3, amended.  When at least one endpoint of the candidate *is* a
recognized router, the source resolver agrees with the spec's description
(native value first, then WETH logs into the router endpoint, `from_addr`
preferred): the divergence is confined to candidates with no router
endpoint, where the source sums into `to_addr` anyway. -/
theorem resolve_agrees_spec (env : Env) (c : Candidate)
    (h : (is_router c.fromAddr || is_router c.toAddr) = true) :
    resolve_candidate env c = resolve_candidate_spec env c := by
  simp only [resolve_candidate, resolve_candidate_spec, bind, Except.bind]
  cases hv : get_tx_eth_value env c.hash with
  | error e => rfl
  | ok v0 =>
      dsimp only
      by_cases h0 : v0 = none ∨ v0 = some 0
      · rw [if_pos h0, if_pos h0]
        by_cases hf : is_router c.fromAddr = true
        · rw [if_pos hf, if_pos hf]
        · rw [if_neg hf, if_neg hf]
          have ht : is_router c.toAddr = true := by
            have h' := h
            rw [Bool.or_eq_true] at h'
            rcases h' with h1 | h1
            · exact absurd h1 hf
            · exact h1
          rw [if_pos ht]
      · rw [if_neg h0, if_neg h0]

/-- Claim C3, witness for `resolve_agrees_spec`: a candidate whose `from` is
the Uniswap V2 router. -/
theorem resolve_agrees_spec_witness :
    (is_router cand_router_from.fromAddr || is_router cand_router_from.toAddr) = true ∧
    resolve_candidate env_weth_b cand_router_from =
      resolve_candidate_spec env_weth_b cand_router_from :=
  ⟨by decide, resolve_agrees_spec env_weth_b cand_router_from (by decide)⟩

/-- Claim C10.  In the stable-token path, when the native lookup yields zero
(or no value), the address whose incoming WETH logs are summed is
`from_addr` iff it is a recognized router and `to_addr` otherwise —
unconditionally, even when `to_addr` is not a recognized router. -/
theorem resolver_fallback_address (env : Env) (c : Candidate)
    (h : get_tx_eth_value env c.hash = .ok none ∨
         get_tx_eth_value env c.hash = .ok (some 0)) :
    resolve_candidate env c =
      get_weth_input_into env c.hash
        (if is_router c.fromAddr then c.fromAddr else c.toAddr) ∧
    (is_router c.fromAddr = false →
      resolve_candidate env c = get_weth_input_into env c.hash c.toAddr) := by
  have hmain : resolve_candidate env c =
      get_weth_input_into env c.hash
        (if is_router c.fromAddr then c.fromAddr else c.toAddr) := by
    rcases h with h | h <;>
    · simp only [resolve_candidate, bind, Except.bind, h]
      rw [if_pos (by simp)]
  refine ⟨hmain, fun hf => ?_⟩
  rw [hmain, if_neg (by simp [hf])]

/-- Claim C10, witness: a candidate with no router endpoint at all — the
resolver still sums the WETH flowing into the (non-router) `to_addr` and
adopts the 1 ETH it finds there. -/
theorem resolver_fallback_address_witness :
    resolve_candidate env_weth_b cand_ab =
      get_weth_input_into env_weth_b cand_ab.hash cand_ab.toAddr ∧
    get_weth_input_into env_weth_b cand_ab.hash cand_ab.toAddr = .ok (some 1) ∧
    is_router cand_ab.fromAddr = false ∧ is_router cand_ab.toAddr = false :=
  ⟨(resolver_fallback_address env_weth_b cand_ab (Or.inr (by decide))).2 (by decide),
   by decide, by decide, by decide⟩

/-- Claim C4, counterexample.  The claim says one candidate's network failure
never aborts the batch.  The loop at `main.py` lines 311-317 has no handler:
with two candidates, a network error raised while looking up the first
aborts the whole loop (the second is never resolved, and matching never
runs). -/
theorem resolve_all_aborts_on_net_error :
    resolve_all env_net_fail [cand_ab, cand_h2] = .error .net := by decide

/-- Claim C4, amended.  Per-candidate isolation holds only for lookups that
*return* (absent or malformed data mapped to an unresolved value): when no
candidate's resolution raises, the loop resolves every candidate
independently; but any raised exception propagates and aborts the batch. -/
theorem resolve_all_ok (env : Env) (cs : List Candidate)
    (h : ∀ c ∈ cs, exceptIsOk (resolve_candidate env c) = true) :
    resolve_all env cs = .ok (cs.map fun c => { c with ethIn := resolvedVal env c }) := by
  induction cs with
  | nil => rfl
  | cons c t ih =>
      have hc := h c (List.mem_cons_self c t)
      cases hr : resolve_candidate env c with
      | error e => simp only [hr, exceptIsOk] at hc; exact Bool.noConfusion hc
      | ok v =>
          simp only [resolve_all, bind, Except.bind, hr]
          rw [ih (fun x hx => h x (List.mem_cons_of_mem _ hx))]
          simp only [List.map_cons, resolvedVal, hr, pure, Except.pure]

/-- Claim C4, witness for `resolve_all_ok`: a quiet environment resolving two
candidates without error. -/
theorem resolve_all_ok_witness :
    resolve_all env_quiet [cand_ab, cand_h2] =
      .ok [{ cand_ab with ethIn := resolvedVal env_quiet cand_ab },
           { cand_h2 with ethIn := resolvedVal env_quiet cand_h2 }] :=
  resolve_all_ok env_quiet [cand_ab, cand_h2] (by decide)

/-- Claim C5, counterexample.  The claim says `eth_value`, once set, is
non-negative.  Python's `int(┄, 16)` accepts signed encodings, and the
resolver adopts any non-zero native value unchecked: a native-value response
of `-0x1` sets a *negative* `eth_value`. -/
theorem eth_value_negative_via_signed_hex :
    exceptOpt (resolve_candidate env_signed cand_ab) ≠ none ∧
    (exceptOpt (resolve_candidate env_signed cand_ab)).getD 0 < 0 := by
  refine ⟨by decide, by decide⟩

/-- Claim C5, amended.  The invariant holds except for signed native-value
encodings: (1) whenever every native-value response for the candidate parses
to a non-negative integer, the resolved `eth_value` is non-negative; (2) a
native value of exactly zero triggers the WETH-log fallback; (3) an adopted
WETH-log sum is strictly positive, a zero sum yields unresolved (`None`);
(4) combination matching admits exactly the candidates with a set, positive
`eth_value` (zero or unset are excluded). -/
theorem eth_value_zero_unresolved :
    (∀ env c v,
        (∀ s k, env.txValue c.hash = .ok (some s) → pyIntHex s = some k → 0 ≤ k) →
        resolve_candidate env c = .ok (some v) → 0 ≤ v) ∧
    (∀ env c, get_tx_eth_value env c.hash = .ok (some 0) →
        resolve_candidate env c =
          get_weth_input_into env c.hash
            (if is_router c.fromAddr then c.fromAddr else c.toAddr)) ∧
    (∀ env h r v, get_weth_input_into env h r = .ok (some v) → 0 < v) ∧
    (∀ c cands, c ∈ with_eth cands ↔ c ∈ cands ∧ ∃ v, c.ethIn = some v ∧ 0 < v) := by
  refine ⟨?_, ?_, get_weth_input_pos, ?_⟩
  · intro env c v henv hres
    cases hv : get_tx_eth_value env c.hash with
    | error e =>
        simp only [resolve_candidate, bind, Except.bind, hv] at hres
        exact Except.noConfusion hres
    | ok v0 =>
        simp only [resolve_candidate, bind, Except.bind, hv] at hres
        by_cases h0 : v0 = none ∨ v0 = some 0
        · rw [if_pos h0] at hres
          exact le_of_lt (get_weth_input_pos env c.hash _ v hres)
        · rw [if_neg h0] at hres
          have hres2 : (Except.ok v0 : Except PyErr (Option ℚ)) = Except.ok (some v) := hres
          injection hres2 with hres3
          subst hres3
          obtain ⟨s, k, hsk, hk, hval⟩ := get_tx_eth_value_shape env c.hash v hv
          have hknn : 0 ≤ k := henv s k hsk hk
          rw [hval]
          simp only [fdiv, floatOfInt]
          refine roundFloat_nonneg (div_nonneg (roundFloat_nonneg ?_) (by norm_num [WEI_FLOAT]))
          exact_mod_cast hknn
  · intro env c h
    simp only [resolve_candidate, bind, Except.bind, h]
    rw [if_pos (by simp)]
  · intro c cands
    rw [with_eth, List.mem_filter]
    constructor
    · rintro ⟨hm, hp⟩
      refine ⟨hm, ?_⟩
      cases he : c.ethIn with
      | none => rw [he] at hp; cases hp
      | some v =>
          rw [he] at hp
          simp only [Bool.and_eq_true, Bool.not_eq_true', decide_eq_true_eq,
            decide_eq_false_iff_not] at hp
          exact ⟨v, rfl, hp.2⟩
    · rintro ⟨hm, v, he, hv⟩
      refine ⟨hm, ?_⟩
      rw [he]
      simp [ne_of_gt hv, hv]

/-- Claim C5, witness for `eth_value_zero_unresolved`: in `env_quiet` every
native response is `0x5` wei, so the resolved value is non-negative. -/
theorem eth_value_zero_unresolved_witness :
    (0 : ℚ) ≤ fdiv (floatOfInt 5) WEI_FLOAT ∧
    resolve_candidate env_quiet cand_ab = .ok (some (fdiv (floatOfInt 5) WEI_FLOAT)) := by
  have hres : resolve_candidate env_quiet cand_ab =
      .ok (some (fdiv (floatOfInt 5) WEI_FLOAT)) := by decide
  refine ⟨eth_value_zero_unresolved.1 env_quiet cand_ab _ ?_ hres, hres⟩
  intro s k h1 h2
  simp only [env_quiet, Except.ok.injEq, Option.some.injEq] at h1
  subst h1
  have h5 : pyIntHex "0x5" = some 5 := by decide
  rw [h5] at h2
  injection h2 with h2
  subst h2
  decide

/-- Claim C6.  The value-window filter accepts exactly the candidates with
`lo ≤ asset_value ≤ hi` where `lo = target*(1 - pct_tol/100)` and
`hi = target*(1 + pct_tol/100)` (the CLI tolerance is in percent), the
absolute-tolerance windows accept exactly `|v - target| ≤ tol`, both bounds
are inclusive, and a transfer only becomes a candidate if it passes the
window. -/
theorem value_window_inclusive :
    (∀ lo hi v : ℚ, in_window lo hi v = true ↔ lo ≤ v ∧ v ≤ hi) ∧
    (∀ s p : ℚ, 0 ≤ s → 0 ≤ p →
       in_window (lo_bound s p) (hi_bound s p) (lo_bound s p) = true ∧
       in_window (lo_bound s p) (hi_bound s p) (hi_bound s p) = true) ∧
    (∀ t tol v : ℚ, in_abs_window t tol v = true ↔ |v - t| ≤ tol) ∧
    (∀ t tol : ℚ, 0 ≤ tol →
       in_abs_window t tol (t - tol) = true ∧ in_abs_window t tol (t + tol) = true) ∧
    (∀ bs rr lo hi d sym t c,
       candidate_of_transfer bs rr lo hi d sym t = some c →
       in_window lo hi (normalize_stable t.value d) = true) := by
  have hwin : ∀ lo hi v : ℚ, in_window lo hi v = true ↔ lo ≤ v ∧ v ≤ hi := by
    intro lo hi v
    simp [in_window]
  refine ⟨hwin, ?_, ?_, ?_, ?_⟩
  · intro s p hs hp
    have hlohi : lo_bound s p ≤ hi_bound s p := by
      rw [lo_bound, hi_bound]
      have h1 : (1 : ℚ) - p / 100 ≤ 1 + p / 100 := by linarith
      exact mul_le_mul_of_nonneg_left h1 hs
    exact ⟨(hwin _ _ _).2 ⟨le_refl _, hlohi⟩, (hwin _ _ _).2 ⟨hlohi, le_refl _⟩⟩
  · intro t tol v
    simp [in_abs_window]
  · intro t tol htol
    refine ⟨?_, ?_⟩ <;>
    · rw [in_abs_window, decide_eq_true_eq, abs_le]
      constructor <;> linarith
  · intro bs rr lo hi d sym t c h
    simp only [candidate_of_transfer] at h
    split_ifs at h with h1 h2 h3
    exact h3

/-- Claim C6, witness for `value_window_inclusive`, at the spec's end-to-end
example: `target = 52800`, `pct_tol = 2%`, so `lo = 51744` and `hi = 53856`,
and both boundary values are accepted. -/
theorem value_window_inclusive_witness :
    lo_bound 52800 2 = 51744 ∧ hi_bound 52800 2 = 53856 ∧
    in_window (lo_bound 52800 2) (hi_bound 52800 2) (lo_bound 52800 2) = true ∧
    in_window (lo_bound 52800 2) (hi_bound 52800 2) (hi_bound 52800 2) = true :=
  ⟨by decide, by decide,
   (value_window_inclusive.2.1 52800 2 (by norm_num) (by norm_num)).1,
   (value_window_inclusive.2.1 52800 2 (by norm_num) (by norm_num)).2⟩

theorem filterMap_imp_sublist {α β : Type} (f g : α → Option β)
    (h : ∀ a b, f a = some b → g a = some b) :
    ∀ l : List α, (l.filterMap f).Sublist (l.filterMap g) := by
  intro l
  induction l with
  | nil => exact List.Sublist.refl _
  | cons a t ih =>
      cases hf : f a with
      | none =>
          cases hg : g a with
          | none => simp only [List.filterMap_cons, hf, hg]; exact ih
          | some b => simp only [List.filterMap_cons, hf, hg]; exact ih.cons b
      | some b =>
          simp only [List.filterMap_cons, hf, h a b hf]
          exact ih.cons₂ b

/-- Claim C7.  For the same inputs, disabling the router-participation filter
never shrinks the candidate list: the candidates collected with
`--require-router` form a sublist of those collected without it, so their
count is no larger. -/
theorem router_filter_monotone :
    ∀ (bs : List String) (lo hi : ℚ) (d : ℕ) (sym : String) (ts : List RawTransfer),
      (collect_candidates bs true lo hi d sym ts).length ≤
      (collect_candidates bs false lo hi d sym ts).length := by
  intro bs lo hi d sym ts
  refine List.Sublist.length_le (filterMap_imp_sublist _ _ ?_ ts)
  intro t c h
  simp only [candidate_of_transfer] at h ⊢
  split_ifs at h with h1 h2 h3
  rw [if_neg h1, if_neg (by simp), if_pos h3]
  exact h

theorem mem_combinations {α : Type} :
    ∀ (xs : List α) (r : ℕ) (c : List α),
      c ∈ combinations r xs ↔ c.Sublist xs ∧ c.length = r := by
  intro xs
  induction xs with
  | nil =>
      intro r c
      cases r with
      | zero =>
          simp only [combinations, List.mem_singleton]
          constructor
          · rintro rfl
            exact ⟨List.Sublist.refl _, rfl⟩
          · rintro ⟨hs, hl⟩
            exact List.length_eq_zero.1 hl
      | succ k =>
          simp only [combinations, List.not_mem_nil, false_iff, not_and]
          intro hs
          have h1 := hs.length_le
          simp only [List.length_nil, Nat.le_zero] at h1
          omega
  | cons x t ih =>
      intro r c
      cases r with
      | zero =>
          simp only [combinations, List.mem_singleton]
          constructor
          · rintro rfl
            exact ⟨List.nil_sublist _, rfl⟩
          · rintro ⟨hs, hl⟩
            exact List.length_eq_zero.1 hl
      | succ k =>
          simp only [combinations, List.mem_append, List.mem_map]
          constructor
          · rintro (⟨c', hc', rfl⟩ | hc)
            · obtain ⟨hs, hl⟩ := (ih k c').1 hc'
              exact ⟨hs.cons₂ x, by simp [hl]⟩
            · obtain ⟨hs, hl⟩ := (ih (k + 1) c).1 hc
              exact ⟨hs.cons x, hl⟩
          · rintro ⟨hs, hl⟩
            rcases List.sublist_cons_iff.1 hs with hsub | ⟨c', rfl, hsub⟩
            · right
              exact (ih (k + 1) c).2 ⟨hsub, hl⟩
            · left
              refine ⟨c', (ih k c').2 ⟨hsub, ?_⟩, rfl⟩
              simpa using hl

/-- Claim C1, counterexample.  The claim (with the spec's "exact decimal
summation") says a result is emitted for exactly the subsets whose *summed
eth_value* lies within tolerance.  `main.py` line 331 sums Python floats:
on the doubles `0.1` and `0.2` (each reachable through the program's own
wei conversion), target `0.30000000000000004`, tolerance `0`, the matcher
emits the pair — whose exact summed value differs from the target by
`2^-55`, i.e. is *not* within tolerance. -/
theorem matchCombos_sum_not_exact :
    matchCombos 2 target_03 0 [cand_pt1, cand_pt2] =
      [⟨target_03, ["0xb1", "0xb2"]⟩] ∧
    ¬ |(ethVal cand_pt1 + ethVal cand_pt2) - target_03| ≤ 0 := by
  refine ⟨by decide, by decide⟩

/-- Claim C1, amended.  The matcher enumerates, for each size `r` in
`1..min(k, n)`, exactly the length-`r` sublists of the group
(`combinations` = all sublists of that length), and emits a result exactly
for those whose *left-to-right binary64 float sum* of `eth_value`s lies
within tolerance of the target under a binary64 subtraction — not the exact
decimal sum, from which this criterion can differ.  On the group
`[5, 5, 3, 2]` (whose float sums are exact) with target `10`, tolerance
`0`, `k = 3`, the emitted results are exactly `{5,5}` and (twice, once per
distinct `5`-candidate) `{5,3,2}`. -/
theorem combination_matcher_exhaustive :
    (∀ (r : ℕ) (xs c : List Candidate),
        c ∈ combinations r xs ↔ c.Sublist xs ∧ c.length = r) ∧
    (∀ (k : ℕ) (target tol : ℚ) (cands : List Candidate) (res : MatchResult),
        res ∈ matchCombos k target tol cands ↔
          ∃ r combo, 1 ≤ r ∧ r ≤ min k cands.length ∧ combo ∈ combinations r cands ∧
            |fsub (floatSum combo) target| ≤ tol ∧
            res = ⟨floatSum combo, combo.map Candidate.hash⟩) ∧
    matchCombos 3 10 0 [cand_five1, cand_five2, cand_three, cand_two] =
      [⟨10, ["0xa1", "0xa2"]⟩, ⟨10, ["0xa1", "0xa3", "0xa4"]⟩,
       ⟨10, ["0xa2", "0xa3", "0xa4"]⟩] := by
  refine ⟨fun r xs c => mem_combinations xs r c, ?_, by decide⟩
  intro k target tol cands res
  simp only [matchCombos, List.mem_flatMap, List.mem_filterMap, List.mem_range'_1]
  constructor
  · rintro ⟨r, ⟨hr1, hr2⟩, combo, hcombo, hres⟩
    split_ifs at hres with htol
    injection hres with hres
    exact ⟨r, combo, hr1, by omega, hcombo, htol, hres.symm⟩
  · rintro ⟨r, combo, hr1, hr2, hcombo, htol, rfl⟩
    refine ⟨r, ⟨hr1, by omega⟩, combo, hcombo, ?_⟩
    rw [if_pos htol]

/-- Claim C9, counterexample.  The claim says a negative tolerance is a fatal
configuration error reported before any fetch.  `main()` never validates any
tolerance: with `--eth-tol` negative and a valid date, the run fetches and
raises no error at all. -/
theorem negative_tolerance_not_checked :
    cfg_negtol.ethTol < 0 ∧ Event.exitErr ∉ main_events cfg_negtol ∧
    Event.fetch ∈ main_events cfg_negtol := by
  refine ⟨by decide, by decide, by decide⟩

/-- Claim C9, amended.  Missing window dates are a fatal exit raised before
any fetch (the whole event trace is that single exit); a negative tolerance
is not validated — the run proceeds, and the negative tolerance merely makes
the match set empty (every emitted subset would need its non-negative
float-difference magnitude `|fsub total target|` to be at most `tol < 0`). -/
theorem missing_dates_fatal_neg_tol_silent :
    (∀ cfg : Config, cfg.apiKey = true → cfg.date = none →
        (cfg.startDate.isSome && cfg.endDate.isSome) = false →
        main_events cfg = [Event.exitErr]) ∧
    (∀ (k : ℕ) (target tol : ℚ) (cands : List Candidate), tol < 0 →
        matchCombos k target tol cands = []) := by
  constructor
  · intro cfg hkey hdate hse
    simp [main_events, hkey, hdate, hse]
  · intro k target tol cands htol
    simp only [matchCombos]
    have hinner : ∀ r : ℕ,
        ((combinations r cands).filterMap fun combo =>
          if |fsub (floatSum combo) target| ≤ tol then
            some (⟨floatSum combo, combo.map Candidate.hash⟩ : MatchResult)
          else none) = [] := by
      intro r
      rw [List.filterMap_eq_nil_iff]
      intro combo _
      rw [if_neg]
      intro habs
      have hnn := abs_nonneg (fsub (floatSum combo) target)
      linarith
    generalize List.range' 1 (min k cands.length) = rs
    induction rs with
    | nil => rfl
    | cons r rs ih =>
        simp only [List.flatMap_cons, hinner r, List.nil_append]
        exact ih

/-- Claim C9, witness for `missing_dates_fatal_neg_tol_silent`: a start date
without an end date exits before any fetch; a negative tolerance yields no
matches. -/
theorem missing_dates_fatal_witness :
    main_events cfg_nodate = [Event.exitErr] ∧ matchCombos 3 10 (-1) [] = [] :=
  ⟨missing_dates_fatal_neg_tol_silent.1 cfg_nodate (by decide) (by decide) (by decide),
   missing_dates_fatal_neg_tol_silent.2 3 10 (-1) [] (by decide)⟩
